import Mathlib

/-!
# Verification of the day-bucketed tracker core (`TimeManager`)

Shallow embedding of the v2 `TimeManager` (the year-file variant: one JSON
file per year, `days` keyed by date string) together with proofs about its
merge-on-save, schema normalization, aggregation and settle operations.

Modelling choices, stated once:

* JavaScript objects used as string-keyed dictionaries are embedded as
  association lists (`List (k × v)`): property read is lookup of the first
  matching key, property write updates the first matching key in place or
  appends a fresh key at the end (JS objects preserve insertion order and
  `for...in` / `Object.keys` iterate in that order).
* The day-key strings produced by `dateString` (`d/m/yyyy`, no zero padding,
  slash-separated so distinct calendar days give distinct strings) are
  embedded as integers counting calendar days; `dateString(minusDays)`
  becomes `today - minusDays`, which models `setDate`'s month/year rollover.
* Wall-clock `Date` values are embedded as integer milliseconds; fractional
  seconds produced by `/1000` live in `ℚ`.  JS numbers are embedded in `ℚ`.
* Fields that a parsed JSON file may lack (`projects`, `saves`, and the four
  counter fields) are `Option`s, mirroring that `JSON.parse` output is
  assigned to `this.store` unchecked.  A parsed file without a `days`
  property is outside the model (every file this program writes has one).
* `[...new Set(xs)]` is embedded as `jsDedup`, which keeps the first
  occurrence of each element, as the JS `Set` iterator does.
-/

section JsMap

variable {K V : Type} [DecidableEq K]

/-- Property read on a JS object: value at the first occurrence of key `k`. -/
def mget : List (K × V) → K → Option V
  | [], _ => none
  | (k', v) :: t, k => if k' = k then some v else mget t k

/-- Property write on a JS object: update the first occurrence of `k` in
place, or append `(k, v)` at the end when `k` is absent. -/
def mset : List (K × V) → K → V → List (K × V)
  | [], k, v => [(k, v)]
  | (k', v') :: t, k, v => if k' = k then (k, v) :: t else (k', v') :: mset t k v

/-- The `delete` operator on a JS object: remove the key `k`. -/
def mdel (m : List (K × V)) (k : K) : List (K × V) :=
  m.filter (fun e => e.1 ≠ k)

@[simp] theorem mget_nil (k : K) : mget ([] : List (K × V)) k = none := rfl

theorem mget_mset_self (m : List (K × V)) (k : K) (v : V) :
    mget (mset m k v) k = some v := by
  induction m with
  | nil => simp [mset, mget]
  | cons e t ih =>
    obtain ⟨k', v'⟩ := e
    by_cases h : k' = k
    · simp [mset, h, mget]
    · simp [mset, h, mget, ih]

theorem mget_mset_ne (m : List (K × V)) (k k' : K) (v : V) (h : k ≠ k') :
    mget (mset m k v) k' = mget m k' := by
  induction m with
  | nil => simp [mset, mget, h]
  | cons e t ih =>
    obtain ⟨k₀, v₀⟩ := e
    by_cases h₀ : k₀ = k
    · subst h₀
      simp [mset, mget, h]
    · simp [mset, h₀, mget, ih]

theorem mset_self (m : List (K × V)) (k : K) (v : V) (h : mget m k = some v) :
    mset m k v = m := by
  induction m with
  | nil => simp [mget] at h
  | cons e t ih =>
    obtain ⟨k₀, v₀⟩ := e
    by_cases h₀ : k₀ = k
    · subst h₀
      simp [mget] at h
      simp [mset, h]
    · simp [mget, h₀] at h
      simp [mset, h₀, ih h]

theorem mget_mdel_self (m : List (K × V)) (k : K) : mget (mdel m k) k = none := by
  induction m with
  | nil => rfl
  | cons e t ih =>
    obtain ⟨k₀, v₀⟩ := e
    by_cases h₀ : k₀ = k
    · simpa [mdel, h₀] using ih
    · simpa [mdel, h₀, mget] using ih

theorem mdel_of_not_mem (m : List (K × V)) (k : K) (h : mget m k = none) :
    mdel m k = m := by
  induction m with
  | nil => rfl
  | cons e t ih =>
    obtain ⟨k₀, v₀⟩ := e
    by_cases h₀ : k₀ = k
    · simp [mget, h₀] at h
    · simp [mget, h₀] at h
      simp [mdel, h₀] at ih ⊢
      exact ih h

/-- Keys are preserved by `mset` lookups: looking up after mapping values. -/
theorem mget_map {W : Type} (m : List (K × V)) (f : K → V → W) (k : K) :
    mget (m.map (fun e => (e.1, f e.1 e.2))) k = (mget m k).map (f k) := by
  induction m with
  | nil => rfl
  | cons e t ih =>
    obtain ⟨k₀, v₀⟩ := e
    by_cases h₀ : k₀ = k
    · subst h₀
      simp [mget]
    · simp [mget, h₀, ih]

end JsMap

section Dedup

/-- `[...new Set(l)]` in JS: remove duplicates keeping the first occurrence
of each element. -/
def jsDedup (l : List String) : List String :=
  l.foldl (fun acc x => if x ∈ acc then acc else acc ++ [x]) []

theorem jsDedup_step_mem (acc : List String) (x : String) (h : x ∈ acc) :
    (if x ∈ acc then acc else acc ++ [x]) = acc := by simp [h]

theorem jsDedup_foldl_nodup (l acc : List String) (h : acc.Nodup) :
    (l.foldl (fun acc x => if x ∈ acc then acc else acc ++ [x]) acc).Nodup := by
  induction l generalizing acc with
  | nil => simpa using h
  | cons y t ih =>
    by_cases hy : y ∈ acc
    · simpa [List.foldl_cons, hy] using ih acc h
    · have h' : (acc ++ [y]).Nodup := by
        simp [List.nodup_append, h, hy]
      simpa [List.foldl_cons, hy] using ih (acc ++ [y]) h'

theorem jsDedup_nodup (l : List String) : (jsDedup l).Nodup :=
  jsDedup_foldl_nodup l [] List.nodup_nil

theorem jsDedup_foldl_mem (l acc : List String) (a : String) :
    a ∈ l.foldl (fun acc x => if x ∈ acc then acc else acc ++ [x]) acc ↔
      a ∈ acc ∨ a ∈ l := by
  induction l generalizing acc with
  | nil => simp
  | cons y t ih =>
    by_cases hy : y ∈ acc
    · rw [List.foldl_cons]
      rw [jsDedup_step_mem acc y hy]
      rw [ih acc]
      constructor
      · rintro (h | h)
        · exact Or.inl h
        · exact Or.inr (List.mem_cons_of_mem y h)
      · rintro (h | h)
        · exact Or.inl h
        · rcases List.mem_cons.mp h with h | h
          · exact Or.inl (h ▸ hy)
          · exact Or.inr h
    · rw [List.foldl_cons]
      simp only [hy, if_false]
      rw [ih (acc ++ [y])]
      simp only [List.mem_append, List.mem_singleton, List.mem_cons]
      tauto

theorem mem_jsDedup (l : List String) (a : String) : a ∈ jsDedup l ↔ a ∈ l := by
  unfold jsDedup
  rw [jsDedup_foldl_mem]
  simp

theorem jsDedup_foldl_of_nodup (l acc : List String) (h : l.Nodup)
    (hd : ∀ a ∈ l, a ∉ acc) :
    l.foldl (fun acc x => if x ∈ acc then acc else acc ++ [x]) acc = acc ++ l := by
  induction l generalizing acc with
  | nil => simp
  | cons y t ih =>
    have hy : y ∉ acc := hd y (List.mem_cons_self y t)
    rw [List.foldl_cons]
    simp only [hy, if_false]
    rw [ih (acc ++ [y]) (List.Nodup.of_cons h)]
    · simp
    · intro a ha
      simp only [List.mem_append, List.mem_singleton]
      rintro (h' | h')
      · exact hd a (List.mem_cons_of_mem y ha) h'
      · subst h'
        exact (List.nodup_cons.mp h).1 ha

theorem jsDedup_of_nodup (l : List String) (h : l.Nodup) : jsDedup l = l := by
  unfold jsDedup
  simpa using jsDedup_foldl_of_nodup l [] h (by simp)

theorem jsDedup_append (a b : List String) :
    jsDedup (a ++ b) =
      b.foldl (fun acc x => if x ∈ acc then acc else acc ++ [x]) (jsDedup a) := by
  unfold jsDedup
  rw [List.foldl_append]

theorem jsDedup_idem_append (a b : List String) :
    jsDedup (jsDedup a ++ b) = jsDedup (a ++ b) := by
  rw [jsDedup_append, jsDedup_append, jsDedup_of_nodup _ (jsDedup_nodup a)]

theorem jsDedup_append_nil (a : List String) : jsDedup (a ++ []) = jsDedup a := by
  simp

theorem jsDedup_append_mem (l : List String) (b : String)
    (hn : l.Nodup) (hb : b ∈ l) : jsDedup (l ++ [b]) = l := by
  rw [jsDedup_append, jsDedup_of_nodup l hn]
  simp [hb]

end Dedup

/-! ## Data model (from `src/unnamed/part_002`)

`RawDetails`, `RawDay`, `TrackerFile` mirror the TypeScript interfaces
`TrackerDetails`, `DayData`, `TrackerFile`, except that the fields a parsed
JSON file may lack are `Option`s: `JSON.parse` output is assigned to
`this.store` without validation, so at runtime any of these properties can be
absent until `validateDaySchema` fills them in. -/

structure RawDetails where
  branches : Option (List String)
  tasks : Option Rat
  debugs : Option Rat
  seconds : Option Rat
deriving DecidableEq, Repr

structure RawDay where
  projects : Option (List (String × RawDetails))
  saves : Option (List (String × Rat))
deriving DecidableEq, Repr

structure TrackerFile where
  version : String
  days : List (Int × RawDay)
deriving DecidableEq, Repr

/-- `const CURRENT_SCHEMA_VERSION: SchemaVersion = `v2`;` -/
def CURRENT_SCHEMA_VERSION : String := "v2"

/-- Aggregated counters returned by `getStatsForPeriod` (all fields present,
as the literal `{ seconds: 0, branches: [], tasks: 0, debugs: 0 }` builds).
A numeric field here is `Option ℚ` with `none` standing for the JS `NaN`
that `+=` produces once an operand was `undefined`; a definite number is
`some`. -/
structure TrackerDetails where
  branches : List String
  tasks : Option Rat
  debugs : Option Rat
  seconds : Option Rat
deriving DecidableEq, Repr

/-- JS `+` on possibly-NaN numbers: definite + definite adds, anything
involving `NaN`/`undefined` (`none`) is `NaN` (`none`). -/
def optAdd (a b : Option Rat) : Option Rat :=
  match a, b with
  | some x, some y => some (x + y)
  | _, _ => none

/-- The `TimeManager` instance state: the in-memory store and the
active-project map (project name ↦ session-start time in ms). -/
structure TimeManager where
  store : TrackerFile
  activeProjects : List (String × Int)
deriving DecidableEq, Repr

/-- The field initializer `store = {version: CURRENT_SCHEMA_VERSION, days: {}}`
and `activeProjects = {}` of a freshly constructed `TimeManager`. -/
def freshManager : TimeManager :=
  { store := { version := CURRENT_SCHEMA_VERSION, days := [] }, activeProjects := [] }

/-- `secondsSize(pastTime)`: `(new Date().getTime() - pastTime.getTime()) / 1000`. -/
def secondsSize (now past : Int) : Rat :=
  ((now : Rat) - (past : Rat)) / 1000

/-- `dateString(minusDays)`: the key of the calendar day `minusDays` days
before today (day keys embedded as integers, see the header). -/
def dateString (today : Int) (minusDays : Nat) : Int :=
  today - minusDays

/-- The `{ id?: string, all?: boolean }` filter taken by `validateDaySchema`,
read in source order: `if (project.id) ... else if (project.all) ...`. -/
inductive PFilter where
  | noneF
  | idF (id : String)
  | allF
deriving DecidableEq, Repr

/-- The `fixProject` closure inside `validateDaySchema`: if the entry exists,
fill each missing counter field (a JS falsy test, so a present `0` is
rewritten to the same `0` and a present `[]` is kept); otherwise create the
entry `{ seconds: 0, branches: [], tasks: 0, debugs: 0 }`. -/
def fixProject (projects : List (String × RawDetails)) (id : String) :
    List (String × RawDetails) :=
  match mget projects id with
  | some d =>
      mset projects id
        { branches := some (d.branches.getD []),
          tasks := some (d.tasks.getD 0),
          debugs := some (d.debugs.getD 0),
          seconds := some (d.seconds.getD 0) }
  | none =>
      mset projects id
        { branches := some [], tasks := some 0, debugs := some 0, seconds := some 0 }

/-- The body of `validateDaySchema` acting on one day object: ensure
`projects` and `saves` are present, then fix one named project, every
project, or none, per the filter. -/
def validateDay (day : RawDay) (filter : PFilter) : RawDay :=
  let projects := day.projects.getD []
  let saves := day.saves.getD []
  let projects :=
    match filter with
    | .idF pid => fixProject projects pid
    | .allF => (projects.map Prod.fst).foldl fixProject projects
    | .noneF => projects
  { projects := some projects, saves := some saves }

/-- `validateDaySchema(chosenDay, project)`: create the day slot
`{ projects: {}, saves: {} }` if absent, then normalize it in place. -/
def validateDaySchema (store : TrackerFile) (chosenDay : Int) (filter : PFilter) :
    TrackerFile :=
  let day := (mget store.days chosenDay).getD { projects := some [], saves := some [] }
  { store with days := mset store.days chosenDay (validateDay day filter) }

/-- `load()`: `disk = none` models `readFile`/`JSON.parse` throwing (missing,
unreadable or unparseable file), which the `catch` turns into "log and keep
the current store".  On success the parsed file replaces the store; when its
version tag differs from the current one, every day present is normalized
with `{all: true}` and the store is stamped with the current version. -/
def load (m : TimeManager) (disk : Option TrackerFile) : TimeManager :=
  match disk with
  | none => m
  | some f =>
      if f.version ≠ CURRENT_SCHEMA_VERSION then
        let migrated := (f.days.map Prod.fst).foldl
          (fun s d => validateDaySchema s d .allF) f
        { m with store := { migrated with version := CURRENT_SCHEMA_VERSION } }
      else
        { m with store := f }

/-- The `for (const pid of Object.keys(this.activeProjects))` loop of
`checkForChanges`, with its two TypeError points: each iteration first
reads `this.store.days[today].projects[pid]`, which throws when the
in-memory `projects` is absent, and a truthy hit then assigns
`updatedProjects[pid] = …`, which throws when the loaded `projects` was
absent (`updatedProjects` started as `undefined`). -/
def mergeLoop (memP : Option (List (String × RawDetails))) :
    List String → Option (List (String × RawDetails)) →
      Except Unit (Option (List (String × RawDetails)))
  | [], acc => .ok acc
  | pid :: rest, acc =>
      match memP with
      | none => .error ()
      | some mp =>
          match mget mp pid with
          | some v =>
              match acc with
              | none => .error ()
              | some up => mergeLoop memP rest (some (mset up pid v))
          | none => mergeLoop memP rest acc

/-- The merging core of `checkForChanges` once the on-disk file has been
re-read and parsed: if either the in-memory store or the loaded store has no
entry for today, return with no change; otherwise start from the loaded
(on-disk) projects for today (possibly `undefined`), overwrite each
currently active project that has an in-memory entry, and store the result
back — the loop propagating a TypeError as a rejection.  (The source also
early-returns when the parsed file lacks the `days` property; files without
`days` are outside this model.) -/
def mergeToday (m : TimeManager) (today : Int) (loadedStore : TrackerFile) :
    Except Unit TimeManager :=
  match mget m.store.days today, mget loadedStore.days today with
  | some memToday, some loadedToday =>
      (mergeLoop memToday.projects (m.activeProjects.map Prod.fst)
          loadedToday.projects).map
        (fun updatedProjects =>
          { m with store := { m.store with
              days := mset m.store.days today
                { memToday with projects := updatedProjects } } })
  | _, _ => .ok m

/-- `checkForChanges()`: re-read the file (no `try`/`catch` here, so a read
or parse failure — `disk = none` — propagates as a rejection, as does a
TypeError inside the merge loop) and merge. -/
def checkForChanges (m : TimeManager) (today : Int) (disk : Option TrackerFile) :
    Except Unit TimeManager :=
  match disk with
  | none => .error ()
  | some loadedStore => mergeToday m today loadedStore

/-- `save()`: `checkForChanges` then serialize the whole store and overwrite
the file.  The returned pair is (new manager state, file contents written). -/
def save (m : TimeManager) (today : Int) (disk : Option TrackerFile) :
    Except Unit (TimeManager × TrackerFile) :=
  (checkForChanges m today disk).map (fun m' => (m', m'.store))

/-- A `Partial<TrackerDetails>` argument to `updateDetails`: the fields the
caller's object literal actually carries. -/
structure DetailsDelta where
  branches : Option (List String) := none
  tasks : Option Rat := none
  debugs : Option Rat := none
  seconds : Option Rat := none
deriving DecidableEq, Repr

/-- The `for (const key in details)` loop body of `updateDetails`: array
fields are merged through a JS `Set` (dedup keeping first occurrence),
`ADD_PROPS` fields (`seconds`, `tasks`, `debugs`) are added.  The counter
fields are present here because `validateDaySchema` ran just before; the
`getD` defaults are the total reading of that guarantee.  The four fields
are independent, so applying them in a fixed order models the key loop. -/
def applyDetails (d : RawDetails) (delta : DetailsDelta) : RawDetails :=
  let d :=
    match delta.branches with
    | some bs => { d with branches := some (jsDedup ((d.branches.getD []) ++ bs)) }
    | none => d
  let d :=
    match delta.tasks with
    | some v => { d with tasks := some (d.tasks.getD 0 + v) }
    | none => d
  let d :=
    match delta.debugs with
    | some v => { d with debugs := some (d.debugs.getD 0 + v) }
    | none => d
  match delta.seconds with
  | some v => { d with seconds := some (d.seconds.getD 0 + v) }
  | none => d

/-- `updateDetails(projectId, details)`: validate today's schema for the
project (creating day and entry as needed), then apply the delta to the
entry.  The `none` fallbacks are unreachable: validation just ensured the
day and the entry exist. -/
def updateDetails (m : TimeManager) (today : Int) (projectId : String)
    (delta : DetailsDelta) : TimeManager :=
  let store := validateDaySchema m.store today (.idF projectId)
  match mget store.days today with
  | some day =>
      let projects := day.projects.getD []
      match mget projects projectId with
      | some existingData =>
          let projects := mset projects projectId (applyDetails existingData delta)
          { m with store := { store with
              days := mset store.days today { day with projects := some projects } } }
      | none => { m with store := store }
  | none => { m with store := store }

/-- `addBranch(ws, branch)`. -/
def addBranch (m : TimeManager) (today : Int) (name branch : String) : TimeManager :=
  updateDetails m today name { branches := some [branch] }

/-- `incrementTasks(ws)`. -/
def incrementTasks (m : TimeManager) (today : Int) (name : String) : TimeManager :=
  updateDetails m today name { tasks := some 1 }

/-- `incrementDebugs(ws)`. -/
def incrementDebugs (m : TimeManager) (today : Int) (name : String) : TimeManager :=
  updateDetails m today name { debugs := some 1 }

/-- `addSave(ext)`: validate today's slot (no project filter), a falsy saves
count becomes `0`, then `++`. -/
def addSave (m : TimeManager) (today : Int) (ext : String) : TimeManager :=
  let store := validateDaySchema m.store today .noneF
  match mget store.days today with
  | some day =>
      let saves := day.saves.getD []
      let saves := mset saves ext (((mget saves ext).getD 0) + 1)
      { m with store := { store with
          days := mset store.days today { day with saves := some saves } } }
  | none => { m with store := store }

/-- `startTracking(ws)`: record `now` as the session start. -/
def startTracking (m : TimeManager) (name : String) (now : Int) : TimeManager :=
  { m with activeProjects := mset m.activeProjects name now }

/-- `updateDaySeconds(specificProject)`: no-op when the project has no active
session; otherwise settle `max(0, secondsSize(start))` into today's ledger
and reset the session start to `now`. -/
def updateDaySeconds (m : TimeManager) (specificProject : String) (now today : Int) :
    TimeManager :=
  match mget m.activeProjects specificProject with
  | none => m
  | some start =>
      let seconds := max 0 (secondsSize now start)
      let m' := updateDetails m today specificProject { seconds := some seconds }
      { m' with activeProjects := mset m'.activeProjects specificProject now }

/-- `endTracking(ws)`: settle, then delete the active-session entry. -/
def endTracking (m : TimeManager) (name : String) (now today : Int) : TimeManager :=
  let m' := updateDaySeconds m name now today
  { m' with activeProjects := mdel m'.activeProjects name }

/-- `updateAllDaySeconds()`: settle every active project.  The key snapshot
taken by `for...in` equals the evolving key list because `updateDaySeconds`
only rewrites an existing key. -/
def updateAllDaySeconds (m : TimeManager) (now today : Int) : TimeManager :=
  (m.activeProjects.map Prod.fst).foldl
    (fun m' n => updateDaySeconds m' n now today) m

/-- `getStats(day)`: deep-copy the stored day (absent day ↦ `undefined`);
when the requested day is today, add to each stored project with an active
session the seconds elapsed since its session start (unclamped).  An
absent `seconds` field makes `+=` produce `NaN`; in the model `none`
stands for that absent-or-`NaN` value, so the adjustment maps under the
`Option`. -/
def getStats (m : TimeManager) (day today now : Int) : Option RawDay :=
  match mget m.store.days day with
  | none => none
  | some storedStats =>
      if day = today then
        match storedStats.projects with
        | none => some storedStats
        | some ps =>
            some { storedStats with projects := some (ps.map (fun e =>
              (e.1,
                match mget m.activeProjects e.1 with
                | some started =>
                    { e.2 with
                      seconds := (e.2.seconds).map
                        (fun s => s + secondsSize now started) }
                | none => e.2))) }
      else some storedStats

/-- `getDays(lastAmount)` with an amount given: the keys of the last
`lastAmount` calendar days, offsets `0, 1, ..., lastAmount-1` from today. -/
def getDays (today : Int) (lastAmount : Nat) : List Int :=
  (List.range lastAmount).map (fun i => dateString today i)

/-- The body of `getStatsForPeriod`'s loop for one day.  The guard
`if (dayStats && dayStats.projects[project])` first reads
`dayStats.projects[project]`, which throws a TypeError when the copied
day's `projects` is absent; an absent entry skips the day, and the
`if (...branches)` guard skips an absent branch list.  Numeric fields
accumulate with JS `+=` (`NaN` once an operand was absent). -/
def periodStep (m : TimeManager) (project : String) (today now : Int)
    (stats : TrackerDetails) (day : Int) : Except Unit TrackerDetails :=
  match getStats m day today now with
  | none => .ok stats
  | some dayStats =>
      match dayStats.projects with
      | none => .error ()
      | some ps =>
          match mget ps project with
          | none => .ok stats
          | some d =>
              .ok { seconds := optAdd stats.seconds d.seconds,
                    branches :=
                      match d.branches with
                      | some bs => jsDedup (stats.branches ++ bs)
                      | none => stats.branches,
                    tasks := optAdd stats.tasks d.tasks,
                    debugs := optAdd stats.debugs d.debugs }

/-- `getStatsForPeriod(project, days)`: fold over the day keys, summing the
numeric counters of the project's per-day stats and set-unioning its branch
lists; a day whose copied entry lacks `projects` throws, rejecting the
whole call. -/
def getStatsForPeriod (m : TimeManager) (project : String) (days : Nat)
    (today now : Int) : Except Unit TrackerDetails :=
  (getDays today days).foldlM (periodStep m project today now)
    { seconds := some 0, branches := [], tasks := some 0, debugs := some 0 }

/-! ## Derived accessors and completeness invariant -/

/-- The value `validateDaySchema` computes for a missing project entry
(`fillDetails none`) or for an existing one (`fillDetails (some d)`). -/
def fillDetails (o : Option RawDetails) : RawDetails :=
  match o with
  | some d =>
      { branches := some (d.branches.getD []),
        tasks := some (d.tasks.getD 0),
        debugs := some (d.debugs.getD 0),
        seconds := some (d.seconds.getD 0) }
  | none =>
      { branches := some [], tasks := some 0, debugs := some 0, seconds := some 0 }

/-- Today's day object before a mutation, with the defaulting
`validateDaySchema` applies when the day slot is absent. -/
def dayBefore (m : TimeManager) (today : Int) : RawDay :=
  (mget m.store.days today).getD { projects := some [], saves := some [] }

/-- Today's projects map before a mutation. -/
def projectsBefore (m : TimeManager) (today : Int) : List (String × RawDetails) :=
  (dayBefore m today).projects.getD []

/-- The seconds the store records for `pid` on day `day` (0 when the day,
the entry or the field is absent). -/
def storedSeconds (m : TimeManager) (day : Int) (pid : String) : Rat :=
  match mget m.store.days day with
  | none => 0
  | some d =>
      match mget (d.projects.getD []) pid with
      | none => 0
      | some det => det.seconds.getD 0

/-- The branch list the store records for `pid` on day `day`. -/
def storedBranches (m : TimeManager) (day : Int) (pid : String) : List String :=
  match mget m.store.days day with
  | none => []
  | some d =>
      match mget (d.projects.getD []) pid with
      | none => []
      | some det => det.branches.getD []

/-- All four counter fields are present. -/
def detailsComplete (d : RawDetails) : Prop :=
  d.branches.isSome ∧ d.tasks.isSome ∧ d.debugs.isSome ∧ d.seconds.isSome

instance (d : RawDetails) : Decidable (detailsComplete d) := by
  unfold detailsComplete; infer_instance

/-- Completeness of an optional project entry (an absent entry is fine). -/
def optComplete (o : Option RawDetails) : Prop :=
  match o with
  | none => True
  | some d => detailsComplete d

instance (o : Option RawDetails) : Decidable (optComplete o) := by
  cases o <;> unfold optComplete <;> infer_instance

/-- Schema completeness of one day: `projects` and `saves` present and every
project entry reachable by lookup complete. -/
def dayComplete (day : RawDay) : Prop :=
  day.projects.isSome ∧ day.saves.isSome ∧
    ∀ p ∈ (day.projects.getD []).map Prod.fst,
      optComplete (mget (day.projects.getD []) p)

instance (day : RawDay) : Decidable (dayComplete day) := by
  unfold dayComplete; infer_instance

/-- Completeness of an optional day. -/
def optDayComplete (o : Option RawDay) : Prop :=
  match o with
  | none => True
  | some d => dayComplete d

instance (o : Option RawDay) : Decidable (optDayComplete o) := by
  cases o <;> unfold optDayComplete <;> infer_instance

/-- Schema completeness of the whole store: every reachable day complete. -/
def storeComplete (s : TrackerFile) : Prop :=
  ∀ k ∈ s.days.map Prod.fst, optDayComplete (mget s.days k)

instance (s : TrackerFile) : Decidable (storeComplete s) := by
  unfold storeComplete; infer_instance

/-! ## Map bookkeeping lemmas -/

section MapLemmas

variable {K V : Type} [DecidableEq K]

theorem mset_mset_self (m : List (K × V)) (k : K) (v w : V) :
    mset (mset m k v) k w = mset m k w := by
  induction m with
  | nil => simp [mset]
  | cons e t ih =>
    obtain ⟨k₀, v₀⟩ := e
    by_cases h₀ : k₀ = k
    · simp [mset, h₀]
    · simp [mset, h₀, ih]

theorem mget_eq_none_iff (m : List (K × V)) (k : K) :
    mget m k = none ↔ k ∉ m.map Prod.fst := by
  induction m with
  | nil => simp
  | cons e t ih =>
    obtain ⟨k₀, v₀⟩ := e
    by_cases h₀ : k₀ = k
    · subst h₀
      simp [mget]
    · simp [mget, h₀, ih, Ne.symm h₀]

theorem mem_keys_of_mget_eq_some {m : List (K × V)} {k : K} {v : V}
    (h : mget m k = some v) : k ∈ m.map Prod.fst := by
  by_contra hk
  rw [← mget_eq_none_iff] at hk
  rw [h] at hk
  exact Option.noConfusion hk

end MapLemmas

/-! ## The effect of validateDaySchema and updateDetails -/

theorem fixProject_eq (ps : List (String × RawDetails)) (pid : String) :
    fixProject ps pid = mset ps pid (fillDetails (mget ps pid)) := by
  unfold fixProject fillDetails
  cases mget ps pid <;> rfl

theorem mget_fixProject_self (ps : List (String × RawDetails)) (pid : String) :
    mget (fixProject ps pid) pid = some (fillDetails (mget ps pid)) := by
  rw [fixProject_eq]
  exact mget_mset_self ps pid _

theorem mget_fixProject_ne (ps : List (String × RawDetails)) (pid q : String)
    (h : pid ≠ q) : mget (fixProject ps pid) q = mget ps q := by
  rw [fixProject_eq]
  exact mget_mset_ne ps pid q _ h

theorem fillDetails_complete (o : Option RawDetails) :
    detailsComplete (fillDetails o) := by
  cases o <;> simp [fillDetails, detailsComplete]

theorem applyDetails_complete (d : RawDetails) (delta : DetailsDelta)
    (h : detailsComplete d) : detailsComplete (applyDetails d delta) := by
  obtain ⟨h₁, h₂, h₃, h₄⟩ := h
  unfold applyDetails
  cases delta.branches <;> cases delta.tasks <;> cases delta.debugs <;>
    cases delta.seconds <;>
    simp_all [detailsComplete]

theorem validateDaySchema_lookup_self (s : TrackerFile) (d : Int) (f : PFilter) :
    mget (validateDaySchema s d f).days d =
      some (validateDay ((mget s.days d).getD { projects := some [], saves := some [] }) f) := by
  unfold validateDaySchema
  exact mget_mset_self s.days d _

theorem validateDaySchema_lookup_ne (s : TrackerFile) (d d' : Int) (f : PFilter)
    (h : d ≠ d') : mget (validateDaySchema s d f).days d' = mget s.days d' := by
  unfold validateDaySchema
  exact mget_mset_ne s.days d d' _ h

theorem validateDaySchema_version (s : TrackerFile) (d : Int) (f : PFilter) :
    (validateDaySchema s d f).version = s.version := rfl

/-- Closed form for `updateDetails`: validation fills today's slot and the
project entry, then the delta is applied to the filled entry; nothing else
changes. -/
theorem updateDetails_spec (m : TimeManager) (today : Int) (pid : String)
    (delta : DetailsDelta) :
    updateDetails m today pid delta =
      { store :=
          { version := m.store.version,
            days := mset m.store.days today
              { projects := some (mset (fixProject (projectsBefore m today) pid) pid
                  (applyDetails (fillDetails (mget (projectsBefore m today) pid)) delta)),
                saves := some ((dayBefore m today).saves.getD []) } },
        activeProjects := m.activeProjects } := by
  unfold updateDetails
  simp only [validateDaySchema_lookup_self, validateDay, mget_fixProject_self,
    projectsBefore, dayBefore, validateDaySchema, mset_mset_self, mget_mset_self,
    Option.getD_some]

theorem updateDetails_activeProjects (m : TimeManager) (today : Int) (pid : String)
    (delta : DetailsDelta) :
    (updateDetails m today pid delta).activeProjects = m.activeProjects := by
  rw [updateDetails_spec]

theorem fillDetails_of_complete (d : RawDetails) (h : detailsComplete d) :
    fillDetails (some d) = d := by
  obtain ⟨h₁, h₂, h₃, h₄⟩ := h
  obtain ⟨b, t, dbg, s⟩ := d
  simp only [Option.isSome_iff_exists] at h₁ h₂ h₃ h₄
  obtain ⟨b', rfl⟩ := h₁
  obtain ⟨t', rfl⟩ := h₂
  obtain ⟨d', rfl⟩ := h₃
  obtain ⟨s', rfl⟩ := h₄
  rfl

theorem storedSeconds_eq_fill (m : TimeManager) (today : Int) (pid : String) :
    storedSeconds m today pid =
      ((fillDetails (mget (projectsBefore m today) pid)).seconds).getD 0 := by
  unfold storedSeconds projectsBefore dayBefore
  cases h : mget m.store.days today with
  | none => simp [fillDetails]
  | some day =>
    simp only [Option.getD_some]
    cases hp : mget (day.projects.getD []) pid with
    | none => simp [fillDetails]
    | some det => simp [fillDetails]

theorem storedBranches_eq_fill (m : TimeManager) (today : Int) (pid : String) :
    storedBranches m today pid =
      ((fillDetails (mget (projectsBefore m today) pid)).branches).getD [] := by
  unfold storedBranches projectsBefore dayBefore
  cases h : mget m.store.days today with
  | none => simp [fillDetails]
  | some day =>
    simp only [Option.getD_some]
    cases hp : mget (day.projects.getD []) pid with
    | none => simp [fillDetails]
    | some det => simp [fillDetails]

theorem storedSeconds_updateDetails_self (m : TimeManager) (today : Int)
    (pid : String) (v : Rat) :
    storedSeconds (updateDetails m today pid { seconds := some v }) today pid =
      storedSeconds m today pid + v := by
  rw [storedSeconds_eq_fill m today pid, updateDetails_spec]
  unfold storedSeconds
  simp only [mget_mset_self, Option.getD_some]
  simp [applyDetails]

theorem storedBranches_updateDetails_self (m : TimeManager) (today : Int)
    (pid : String) (bs : List String) :
    storedBranches (updateDetails m today pid { branches := some bs }) today pid =
      jsDedup (storedBranches m today pid ++ bs) := by
  rw [storedBranches_eq_fill m today pid, updateDetails_spec]
  unfold storedBranches
  simp only [mget_mset_self, Option.getD_some]
  simp [applyDetails]

theorem storedSeconds_updateDetails_frame (m : TimeManager) (today : Int)
    (pid : String) (delta : DetailsDelta) (d : Int) (q : String)
    (h : d ≠ today ∨ q ≠ pid) :
    storedSeconds (updateDetails m today pid delta) d q = storedSeconds m d q := by
  rw [updateDetails_spec]
  unfold storedSeconds
  rcases h with h | h
  · rw [mget_mset_ne _ _ _ _ (Ne.symm h)]
  · by_cases hd : d = today
    · subst hd
      simp only [mget_mset_self, Option.getD_some]
      rw [mget_mset_ne _ _ _ _ (Ne.symm h), mget_fixProject_ne _ _ _ (Ne.symm h)]
      unfold projectsBefore dayBefore
      cases hm : mget m.store.days d with
      | none => simp
      | some day => simp
    · rw [mget_mset_ne _ _ _ _ (Ne.symm hd)]

/-! ## Settle operations -/

theorem updateDaySeconds_noop (m : TimeManager) (pid : String) (now today : Int)
    (h : mget m.activeProjects pid = none) :
    updateDaySeconds m pid now today = m := by
  unfold updateDaySeconds
  rw [h]

theorem updateDaySeconds_active (m : TimeManager) (pid : String) (now today : Int)
    (start : Int) (h : mget m.activeProjects pid = some start) :
    updateDaySeconds m pid now today =
      { store := (updateDetails m today pid
          { seconds := some (max 0 (secondsSize now start)) }).store,
        activeProjects := mset m.activeProjects pid now } := by
  unfold updateDaySeconds
  rw [h]
  simp only [updateDetails_activeProjects]

theorem endTracking_active (m : TimeManager) (pid : String) (now today : Int)
    (start : Int) (h : mget m.activeProjects pid = some start) :
    endTracking m pid now today =
      { store := (updateDetails m today pid
          { seconds := some (max 0 (secondsSize now start)) }).store,
        activeProjects := mdel (mset m.activeProjects pid now) pid } := by
  unfold endTracking
  rw [updateDaySeconds_active m pid now today start h]

theorem endTracking_noop (m : TimeManager) (pid : String) (now today : Int)
    (h : mget m.activeProjects pid = none) :
    endTracking m pid now today = m := by
  unfold endTracking
  rw [updateDaySeconds_noop m pid now today h]
  show ({ store := m.store, activeProjects := mdel m.activeProjects pid } : TimeManager) = m
  rw [mdel_of_not_mem m.activeProjects pid h]

theorem storedSeconds_store_only (x : TimeManager) (a : List (String × Int))
    (d : Int) (q : String) :
    storedSeconds { store := x.store, activeProjects := a } d q =
      storedSeconds x d q := rfl

/-- Every project's recorded seconds (under the defensive `getD 0` reading)
is non-negative, on every day. -/
def secondsNonneg (m : TimeManager) : Prop :=
  ∀ d pid, 0 ≤ storedSeconds m d pid

theorem secondsNonneg_updateDetails_seconds (m : TimeManager) (today : Int)
    (pid : String) (v : Rat) (hv : 0 ≤ v) (h : secondsNonneg m) :
    secondsNonneg (updateDetails m today pid { seconds := some v }) := by
  intro d q
  by_cases hd : d = today
  · subst hd
    by_cases hq : q = pid
    · subst hq
      rw [storedSeconds_updateDetails_self]
      exact add_nonneg (h d q) hv
    · rw [storedSeconds_updateDetails_frame _ _ _ _ _ _ (Or.inr hq)]
      exact h d q
  · rw [storedSeconds_updateDetails_frame _ _ _ _ _ _ (Or.inl hd)]
    exact h d q

theorem secondsNonneg_updateDaySeconds (m : TimeManager) (pid : String)
    (now today : Int) (h : secondsNonneg m) :
    secondsNonneg (updateDaySeconds m pid now today) := by
  cases hA : mget m.activeProjects pid with
  | none =>
    rw [updateDaySeconds_noop _ _ _ _ hA]
    exact h
  | some start =>
    rw [updateDaySeconds_active _ _ _ _ start hA]
    intro d q
    rw [storedSeconds_store_only]
    exact secondsNonneg_updateDetails_seconds m today pid _ (le_max_left 0 _) h d q

theorem secondsNonneg_endTracking (m : TimeManager) (pid : String)
    (now today : Int) (h : secondsNonneg m) :
    secondsNonneg (endTracking m pid now today) := by
  cases hA : mget m.activeProjects pid with
  | none =>
    rw [endTracking_noop _ _ _ _ hA]
    exact h
  | some start =>
    rw [endTracking_active _ _ _ _ start hA]
    intro d q
    rw [storedSeconds_store_only]
    exact secondsNonneg_updateDetails_seconds m today pid _ (le_max_left 0 _) h d q

theorem secondsNonneg_updateAllDaySeconds (m : TimeManager) (now today : Int)
    (h : secondsNonneg m) :
    secondsNonneg (updateAllDaySeconds m now today) := by
  unfold updateAllDaySeconds
  generalize m.activeProjects.map Prod.fst = l
  induction l generalizing m with
  | nil => exact h
  | cons n t ih =>
    exact ih (updateDaySeconds m n now today)
      (secondsNonneg_updateDaySeconds m n now today h)

/-! ## Branch set semantics -/

theorem applyDetails_branch_idem (d : RawDetails) (b : String) :
    applyDetails (applyDetails d { branches := some [b] }) { branches := some [b] } =
      applyDetails d { branches := some [b] } := by
  simp only [applyDetails, Option.getD_some]
  rw [jsDedup_append_mem (jsDedup (d.branches.getD [] ++ [b])) b (jsDedup_nodup _)
    ((mem_jsDedup _ b).mpr (by simp))]

theorem addBranch_idem (m : TimeManager) (today : Int) (pid b : String) :
    addBranch (addBranch m today pid b) today pid b = addBranch m today pid b := by
  unfold addBranch
  rw [updateDetails_spec m today pid]
  generalize hps : projectsBefore m today = ps0
  generalize hS : (dayBefore m today).saves.getD [] = S1
  generalize hE : applyDetails (fillDetails (mget ps0 pid))
    ({ branches := some [b] } : DetailsDelta) = E1
  have hc : detailsComplete E1 := by
    rw [← hE]
    exact applyDetails_complete _ _ (fillDetails_complete _)
  have hIdem : applyDetails E1 ({ branches := some [b] } : DetailsDelta) = E1 := by
    rw [← hE]
    exact applyDetails_branch_idem _ b
  rw [updateDetails_spec]
  simp only [projectsBefore, dayBefore, mget_mset_self, Option.getD_some]
  rw [fillDetails_of_complete E1 hc, hIdem]
  have hFix : fixProject (mset (fixProject ps0 pid) pid E1) pid =
      mset (fixProject ps0 pid) pid E1 := by
    rw [fixProject_eq, mget_mset_self, fillDetails_of_complete E1 hc, mset_mset_self]
  rw [hFix]
  rw [mset_mset_self (fixProject ps0 pid) pid E1 E1]
  rw [mset_mset_self m.store.days today]

/-! ## Merge-on-save helper lemmas -/

theorem mergeToday_noMem (m : TimeManager) (today : Int) (f : TrackerFile)
    (h : mget m.store.days today = none) : mergeToday m today f = .ok m := by
  unfold mergeToday
  rw [h]

theorem mergeToday_noDisk (m : TimeManager) (today : Int) (f : TrackerFile)
    (h : mget f.days today = none) : mergeToday m today f = .ok m := by
  unfold mergeToday
  rw [h]
  cases mget m.store.days today <;> rfl

/-- The projects map `checkForChanges` installs for today when both sides
have an entry and both `projects` maps are present: start from the on-disk
projects, then overwrite each active project that has an in-memory entry. -/
def mergedProjects (m : TimeManager) (memToday loadedToday : RawDay) :
    List (String × RawDetails) :=
  m.activeProjects.foldl
    (fun acc e =>
      match mget (memToday.projects.getD []) e.1 with
      | some v => mset acc e.1 v
      | none => acc)
    (loadedToday.projects.getD [])

/-- The manager state a successful merge installs when both sides carry a
today entry with a present `projects` map. -/
def mergeResult (m : TimeManager) (today : Int) (memToday loadedToday : RawDay) :
    TimeManager :=
  { m with store := { m.store with
      days := mset m.store.days today
        { memToday with
            projects := some (mergedProjects m memToday loadedToday) } } }

theorem mergeLoop_ok (mp : List (String × RawDetails)) (pids : List String)
    (init : List (String × RawDetails)) :
    mergeLoop (some mp) pids (some init) =
      .ok (some (pids.foldl
        (fun acc pid =>
          match mget mp pid with
          | some v => mset acc pid v
          | none => acc) init)) := by
  induction pids generalizing init with
  | nil => rfl
  | cons pid rest ih =>
    rw [List.foldl_cons]
    cases hv : mget mp pid with
    | some v => simp [mergeLoop, hv, ih]
    | none => simp [mergeLoop, hv, ih]

theorem mergeLoop_none_error (pid : String) (rest : List String)
    (acc : Option (List (String × RawDetails))) :
    mergeLoop none (pid :: rest) acc = .error () := rfl

theorem mergeToday_merge (m : TimeManager) (today : Int) (f : TrackerFile)
    (memToday loadedToday : RawDay)
    (memP loadedP : List (String × RawDetails))
    (h1 : mget m.store.days today = some memToday)
    (h2 : mget f.days today = some loadedToday)
    (hm : memToday.projects = some memP)
    (hl : loadedToday.projects = some loadedP) :
    mergeToday m today f = .ok (mergeResult m today memToday loadedToday) := by
  unfold mergeToday
  simp only [h1, h2]
  rw [hm, hl, mergeLoop_ok]
  unfold mergeResult mergedProjects
  rw [hm, hl]
  simp only [Option.getD_some, Except.map, List.foldl_map]

theorem mergeToday_error (m : TimeManager) (today : Int) (f : TrackerFile)
    (memToday loadedToday : RawDay)
    (h1 : mget m.store.days today = some memToday)
    (h2 : mget f.days today = some loadedToday)
    (hm : memToday.projects = none)
    (ha : m.activeProjects ≠ []) :
    mergeToday m today f = .error () := by
  unfold mergeToday
  simp only [h1, h2]
  rw [hm]
  cases hA : m.activeProjects with
  | nil => exact absurd hA ha
  | cons e t =>
    rw [List.map_cons, mergeLoop_none_error]
    rfl

theorem save_eq (m : TimeManager) (today : Int) (f : TrackerFile) :
    save m today (some f) =
      (mergeToday m today f).map (fun m' => (m', m'.store)) := rfl

theorem save_of_mergeToday_ok (m : TimeManager) (today : Int) (f : TrackerFile)
    (M : TimeManager) (h : mergeToday m today f = .ok M) :
    save m today (some f) = .ok (M, M.store) := by
  rw [save_eq, h]
  rfl

theorem save_of_mergeToday_error (m : TimeManager) (today : Int) (f : TrackerFile)
    (h : mergeToday m today f = .error ()) :
    save m today (some f) = .error () := by
  rw [save_eq, h]
  rfl

/-! ## Sample states used by the concrete witnesses and counterexamples -/

/-- An empty current-version store. -/
def emptyStore : TrackerFile := { version := "v2", days := [] }

/-- Fresh manager with project `p` active since time 0. -/
def mgrActiveP : TimeManager := { store := emptyStore, activeProjects := [("p", 0)] }

/-- Fresh manager with no active project. -/
def mgrIdle : TimeManager := { store := emptyStore, activeProjects := [] }

/-- Fresh manager whose session for `p` started at 5000 ms (later than the
settle time 2000 ms: the clock moved backward). -/
def mgrSkew : TimeManager := { store := emptyStore, activeProjects := [("p", 5000)] }

/-- A day object with no projects and a saves count `ts ↦ 3`. -/
def dayTs : RawDay := { projects := some [], saves := some [("ts", 3)] }

/-- A day object with no projects and a saves count `rs ↦ 9`. -/
def dayRs : RawDay := { projects := some [], saves := some [("rs", 9)] }

/-- Manager whose store has `dayTs` under day key 0 and nothing active. -/
def mgrSaves : TimeManager :=
  { store := { version := "v2", days := [(0, dayTs)] }, activeProjects := [] }

/-- On-disk file with `dayRs` under day key 0. -/
def diskSaves : TrackerFile := { version := "v2", days := [(0, dayRs)] }

/-! ## Claims C5, C6, C7, C8, C9 -/

/-- C5: `endTracking(p)` with an active session adds the elapsed seconds
since the session start to `p`'s seconds in today's ledger and removes the
active-session entry; without an active session it is a complete no-op
(store and active-session mapping unchanged, no error). -/
theorem claim_C5_endTracking (m : TimeManager) (pid : String) (now today start : Int) :
    (mget m.activeProjects pid = some start → start ≤ now →
      storedSeconds (endTracking m pid now today) today pid
          = storedSeconds m today pid + secondsSize now start
        ∧ mget (endTracking m pid now today).activeProjects pid = none)
    ∧ (mget m.activeProjects pid = none → endTracking m pid now today = m) := by
  constructor
  · intro hA hle
    have hmax : max 0 (secondsSize now start) = secondsSize now start := by
      apply max_eq_right
      unfold secondsSize
      apply div_nonneg _ (by norm_num)
      simp only [sub_nonneg]
      exact_mod_cast hle
    constructor
    · rw [endTracking_active _ _ _ _ start hA, storedSeconds_store_only,
        storedSeconds_updateDetails_self, hmax]
    · rw [endTracking_active _ _ _ _ start hA]
      exact mget_mdel_self _ _
  · exact endTracking_noop m pid now today

/-- Witness for C5 at concrete inputs: `p` active since time 0 settles at
2000 ms; a manager with no session for `q` is untouched by `endTracking`. -/
theorem claim_C5_endTracking_witness :
    (storedSeconds (endTracking mgrActiveP "p" 2000 0) 0 "p"
        = storedSeconds mgrActiveP 0 "p" + secondsSize 2000 0
      ∧ mget (endTracking mgrActiveP "p" 2000 0).activeProjects "p" = none)
    ∧ endTracking mgrIdle "q" 5 0 = mgrIdle :=
  ⟨(claim_C5_endTracking mgrActiveP "p" 2000 0 0).1 (by decide) (by decide),
   (claim_C5_endTracking mgrIdle "q" 5 0 0).2 (by decide)⟩

/-- C6: `addBranch(p, b)` has set semantics: after the call `b` occurs
exactly once in `p`'s branch list for today, the list has no duplicates (so
a branch occurs at most once after any sequence of `addBranch` calls), and
an immediately repeated call with the same `b` leaves the entire manager
state unchanged. -/
theorem claim_C6_addBranch_set_semantics (m : TimeManager) (today : Int)
    (pid b : String) :
    (storedBranches (addBranch m today pid b) today pid).count b = 1
    ∧ (storedBranches (addBranch m today pid b) today pid).Nodup
    ∧ addBranch (addBranch m today pid b) today pid b = addBranch m today pid b := by
  have hBr : storedBranches (addBranch m today pid b) today pid
      = jsDedup (storedBranches m today pid ++ [b]) := by
    unfold addBranch
    exact storedBranches_updateDetails_self m today pid [b]
  refine ⟨?_, ?_, addBranch_idem m today pid b⟩
  · rw [hBr]
    exact List.count_eq_one_of_mem (jsDedup_nodup _) ((mem_jsDedup _ b).mpr (by simp))
  · rw [hBr]
    exact jsDedup_nodup _

/-- C7: every settle (`endTracking` / `updateAllDaySeconds`, both through
`updateDaySeconds`) adds exactly `max 0 (elapsed)` to today's ledger —
never a negative amount, even when the clock moved backward — and recorded
seconds that were non-negative stay non-negative. -/
theorem claim_C7_settle_clamped (m : TimeManager) (pid : String)
    (now today start : Int) :
    (mget m.activeProjects pid = some start →
      0 ≤ max 0 (secondsSize now start)
        ∧ storedSeconds (updateDaySeconds m pid now today) today pid
            = storedSeconds m today pid + max 0 (secondsSize now start)
        ∧ storedSeconds (endTracking m pid now today) today pid
            = storedSeconds m today pid + max 0 (secondsSize now start))
    ∧ (secondsNonneg m → secondsNonneg (endTracking m pid now today))
    ∧ (secondsNonneg m → secondsNonneg (updateAllDaySeconds m now today)) := by
  refine ⟨?_, secondsNonneg_endTracking m pid now today,
    secondsNonneg_updateAllDaySeconds m now today⟩
  intro hA
  refine ⟨le_max_left 0 _, ?_, ?_⟩
  · rw [updateDaySeconds_active _ _ _ _ start hA, storedSeconds_store_only,
      storedSeconds_updateDetails_self]
  · rw [endTracking_active _ _ _ _ start hA, storedSeconds_store_only,
      storedSeconds_updateDetails_self]

/-- Witness for C7 at a concrete input where the clock moved backward
(session started at 5000 ms, settle happens at 2000 ms). -/
theorem claim_C7_settle_clamped_witness :
    (0 ≤ max 0 (secondsSize 2000 5000)
      ∧ storedSeconds (updateDaySeconds mgrSkew "p" 2000 0) 0 "p"
          = storedSeconds mgrSkew 0 "p" + max 0 (secondsSize 2000 5000)
      ∧ storedSeconds (endTracking mgrSkew "p" 2000 0) 0 "p"
          = storedSeconds mgrSkew 0 "p" + max 0 (secondsSize 2000 5000))
    ∧ secondsNonneg (endTracking mgrSkew "p" 2000 0)
    ∧ secondsNonneg (updateAllDaySeconds mgrSkew 2000 0) :=
  ⟨(claim_C7_settle_clamped mgrSkew "p" 2000 0 5000).1 (by decide),
   (claim_C7_settle_clamped mgrSkew "p" 2000 0 5000).2.1 (fun _ _ => le_refl 0),
   (claim_C7_settle_clamped mgrSkew "p" 2000 0 5000).2.2 (fun _ _ => le_refl 0)⟩

/-- C8: `load()` never throws: on any failing on-disk state (missing,
unreadable, unparseable content — the `catch` path, modelled by `none`) it
completes and leaves the store as it was, which on a fresh instance is
exactly the empty structure tagged with the current schema version. -/
theorem claim_C8_load_failure :
    (∀ m : TimeManager, load m none = m)
    ∧ freshManager.store = { version := CURRENT_SCHEMA_VERSION, days := [] }
    ∧ (load freshManager none).store
        = { version := CURRENT_SCHEMA_VERSION, days := [] } :=
  ⟨fun _ => rfl, rfl, rfl⟩

/-- Any state a successful merge installs keeps, for every day key, the
`saves` mapping held in memory: the merge only ever replaces today's
`projects`. -/
theorem mergeToday_ok_saves (m : TimeManager) (today : Int) (f : TrackerFile)
    (M : TimeManager) (h : mergeToday m today f = .ok M) (d : Int) :
    (mget M.store.days d).map RawDay.saves
      = (mget m.store.days d).map RawDay.saves := by
  cases hmem : mget m.store.days today with
  | none =>
    rw [mergeToday_noMem m today f hmem] at h
    injection h with h'
    subst h'
    rfl
  | some memToday =>
    cases hld : mget f.days today with
    | none =>
      rw [mergeToday_noDisk m today f hld] at h
      injection h with h'
      subst h'
      rfl
    | some loadedToday =>
      unfold mergeToday at h
      simp only [hmem, hld] at h
      cases hml : mergeLoop memToday.projects (m.activeProjects.map Prod.fst)
          loadedToday.projects with
      | error e =>
        rw [hml] at h
        simp [Except.map] at h
      | ok updated =>
        rw [hml] at h
        simp only [Except.map] at h
        injection h with h'
        subst h'
        by_cases hd : d = today
        · subst hd
          rw [mget_mset_self, hmem]
          rfl
        · rw [mget_mset_ne _ _ _ _ (Ne.symm hd)]

/-- C9: the merge-on-save step merges only today's `projects`; for every day
key, the `saves` mapping in the written file comes from this instance's
in-memory store, so saves counts written to disk by another instance are
replaced unconditionally on every successful `save()`. -/
theorem claim_C9_saves_replaced (m : TimeManager) (today : Int)
    (disk : Option TrackerFile) (m' : TimeManager) (w : TrackerFile) (d : Int)
    (h : save m today disk = .ok (m', w)) :
    (mget w.days d).map RawDay.saves = (mget m.store.days d).map RawDay.saves := by
  cases disk with
  | none => simp [save, checkForChanges, Except.map] at h
  | some f =>
    rw [save_eq] at h
    cases hmg : mergeToday m today f with
    | error e =>
      rw [hmg] at h
      simp [Except.map] at h
    | ok M =>
      rw [hmg] at h
      simp only [Except.map] at h
      injection h with h'
      have hw : w = M.store := ((Prod.mk.injEq _ _ _ _).mp h').2.symm
      rw [hw]
      exact mergeToday_ok_saves m today f M hmg d

/-- Witness for C9 at a concrete input: memory has `saves = {ts: 3}` for
today (day key 0), the re-read disk file has `saves = {rs: 9}`; the file
written by `save` keeps the in-memory saves. -/
theorem claim_C9_saves_replaced_witness :
    (mget ({ version := "v2", days := [(0, dayTs)] } : TrackerFile).days 0).map
        RawDay.saves
      = (mget mgrSaves.store.days 0).map RawDay.saves :=
  claim_C9_saves_replaced mgrSaves 0 (some diskSaves) mgrSaves
    { version := "v2", days := [(0, dayTs)] } 0 (by rfl)

/-! ## Claim C1: merge-on-save -/

theorem mergedProjects_foldl_lookup (memP : List (String × RawDetails))
    (l : List (String × Int)) (acc : List (String × RawDetails)) (q : String) :
    mget (l.foldl
        (fun acc e =>
          match mget memP e.1 with
          | some v => mset acc e.1 v
          | none => acc) acc) q =
      if q ∈ l.map Prod.fst ∧ (mget memP q).isSome
      then mget memP q
      else mget acc q := by
  induction l generalizing acc with
  | nil => simp
  | cons e rest ih =>
    obtain ⟨p0, t0⟩ := e
    rw [List.foldl_cons, ih]
    by_cases hp : p0 = q
    · subst hp
      cases hm : mget memP p0 with
      | some v =>
        simp only [hm, Option.isSome_some, and_true, List.map_cons, List.mem_cons,
          true_or, if_pos, true_and]
        by_cases hr : p0 ∈ rest.map Prod.fst
        · simp [hr]
        · simp [hr, mget_mset_self]
      | none =>
        simp [hm]
    · have hqp : q = p0 ↔ False := ⟨fun h => hp h.symm, False.elim⟩
      have hcond : (q ∈ p0 :: List.map Prod.fst rest) ↔ q ∈ List.map Prod.fst rest := by
        simp [List.mem_cons, hqp]
      cases hm : mget memP p0 with
      | some v =>
        simp only [hm]
        rw [mget_mset_ne acc p0 q v hp]
        simp only [List.map_cons, hcond]
      | none =>
        simp only [hm, List.map_cons, hcond]

theorem mergedProjects_lookup (m : TimeManager) (memToday loadedToday : RawDay)
    (q : String) :
    mget (mergedProjects m memToday loadedToday) q =
      if q ∈ m.activeProjects.map Prod.fst
          ∧ (mget (memToday.projects.getD []) q).isSome
      then mget (memToday.projects.getD []) q
      else mget (loadedToday.projects.getD []) q := by
  unfold mergedProjects
  exact mergedProjects_foldl_lookup _ _ _ q

/-- On-disk counters another instance wrote for project `Y` (5 seconds). -/
def detY : RawDetails :=
  { branches := some [], tasks := some 0, debugs := some 0, seconds := some 5 }

/-- On-disk today entry holding `Y`. -/
def dayY : RawDay := { projects := some [("Y", detY)], saves := some [] }

/-- On-disk file holding `Y`'s counters under day key 0. -/
def fileY : TrackerFile := { version := "v2", days := [(0, dayY)] }

/-- A schema-complete day with no projects. -/
def emptyDay : RawDay := { projects := some [], saves := some [] }

/-- Manager with today's slot present but empty, and `X` active with no
in-memory entry yet. -/
def mgrX : TimeManager :=
  { store := { version := "v2", days := [(0, emptyDay)] },
    activeProjects := [("X", 0)] }

/-- On-disk counters another instance wrote for project `X` (7 seconds). -/
def detX : RawDetails :=
  { branches := some [], tasks := some 0, debugs := some 0, seconds := some 7 }

/-- On-disk today entry holding `X`. -/
def dayX : RawDay := { projects := some [("X", detX)], saves := some [] }

/-- On-disk file holding `X`'s counters under day key 0. -/
def fileX : TrackerFile := { version := "v2", days := [(0, dayX)] }

/-- C1 is false as stated, at two explicit inputs.  First: the in-memory
store has no entry for today, the disk holds `Y`'s counters (written by
another instance, `Y` not active here); `save()` succeeds but the written
file has no entry for today at all, so `Y`'s on-disk counters are lost
rather than preserved.  Second: `X` is active but has no in-memory entry
for today; the written file carries `X`'s on-disk counters, not anything
from this instance's memory. -/
theorem claim_C1_counterexample :
    (mget mgrIdle.activeProjects "Y" = none
      ∧ mget fileY.days 0 = some dayY
      ∧ mget (dayY.projects.getD []) "Y" = some detY
      ∧ save mgrIdle 0 (some fileY) = .ok (mgrIdle, emptyStore)
      ∧ mget emptyStore.days 0 = none)
    ∧ (mget mgrX.activeProjects "X" = some 0
      ∧ mget (emptyDay.projects.getD []) "X" = none
      ∧ mget mgrX.store.days 0 = some emptyDay
      ∧ save mgrX 0 (some fileX)
          = .ok ({ store := fileX, activeProjects := [("X", 0)] }, fileX)
      ∧ mget (dayX.projects.getD []) "X" = some detX) :=
  ⟨⟨rfl, rfl, rfl, rfl, rfl⟩, ⟨rfl, rfl, rfl, rfl, rfl⟩⟩

/-- Today entry whose `projects` map is absent (as a trusted malformed
current-version load can produce). -/
def dayNoProj : RawDay := { projects := none, saves := some [] }

/-- Manager holding `dayNoProj` for today with `X` active: the merge loop's
first read throws. -/
def mgrNoProj : TimeManager :=
  { store := { version := "v2", days := [(0, dayNoProj)] },
    activeProjects := [("X", 0)] }

/-- C1 (amended): when both the in-memory store and the re-read disk file
have an entry for today and both entries carry a `projects` map, `save()`
writes a merged today's projects map in which a project not currently
active takes the on-disk value, a currently active project with an
in-memory entry takes the in-memory value, and a currently active project
without an in-memory entry keeps the on-disk value; other days come from
memory.  When either side lacks today's entry, the in-memory store is
written unchanged; and when today's in-memory entry lacks its `projects`
map while some project is active, the merge loop throws and `save()`
rejects without writing. -/
theorem claim_C1_merge_amended (m : TimeManager) (today : Int) (f : TrackerFile)
    (memToday loadedToday : RawDay) (memP loadedP : List (String × RawDetails))
    (q : String) (d : Int) :
    (mget m.store.days today = some memToday →
      mget f.days today = some loadedToday →
      memToday.projects = some memP →
      loadedToday.projects = some loadedP →
      save m today (some f)
          = .ok (mergeResult m today memToday loadedToday,
              (mergeResult m today memToday loadedToday).store)
        ∧ mget (mergeResult m today memToday loadedToday).store.days today
            = some { memToday with
                projects := some (mergedProjects m memToday loadedToday) }
        ∧ mget (mergedProjects m memToday loadedToday) q
            = (if q ∈ m.activeProjects.map Prod.fst
                  ∧ (mget (memToday.projects.getD []) q).isSome
               then mget (memToday.projects.getD []) q
               else mget (loadedToday.projects.getD []) q)
        ∧ (d ≠ today →
            mget (mergeResult m today memToday loadedToday).store.days d
              = mget m.store.days d))
    ∧ (mget m.store.days today = none →
        save m today (some f) = .ok (m, m.store))
    ∧ (mget f.days today = none →
        save m today (some f) = .ok (m, m.store))
    ∧ (mget m.store.days today = some memToday →
        mget f.days today = some loadedToday →
        memToday.projects = none →
        m.activeProjects ≠ [] →
        save m today (some f) = .error ()) := by
  refine ⟨?_, ?_, ?_, ?_⟩
  · intro h1 h2 hm hl
    have hok := mergeToday_merge m today f memToday loadedToday memP loadedP h1 h2 hm hl
    refine ⟨save_of_mergeToday_ok m today f _ hok, ?_,
      mergedProjects_lookup m memToday loadedToday q, ?_⟩
    · exact mget_mset_self _ _ _
    · intro hd
      exact mget_mset_ne _ _ _ _ (Ne.symm hd)
  · intro h1
    exact save_of_mergeToday_ok m today f m (mergeToday_noMem m today f h1)
  · intro h2
    exact save_of_mergeToday_ok m today f m (mergeToday_noDisk m today f h2)
  · intro h1 h2 hm ha
    exact save_of_mergeToday_error m today f
      (mergeToday_error m today f memToday loadedToday h1 h2 hm ha)

/-- Witness for the amended C1 at concrete inputs: `X` active with memory
and disk both holding a today entry with `projects` present (merged write),
and the same disk against a memory whose today entry lacks `projects`
(rejected write). -/
theorem claim_C1_merge_amended_witness :
    (save mgrX 0 (some fileX)
        = .ok (mergeResult mgrX 0 emptyDay dayX,
            (mergeResult mgrX 0 emptyDay dayX).store)
      ∧ mget (mergeResult mgrX 0 emptyDay dayX).store.days 0
          = some { emptyDay with
              projects := some (mergedProjects mgrX emptyDay dayX) }
      ∧ mget (mergedProjects mgrX emptyDay dayX) "X"
          = (if "X" ∈ mgrX.activeProjects.map Prod.fst
                ∧ (mget (emptyDay.projects.getD []) "X").isSome
             then mget (emptyDay.projects.getD []) "X"
             else mget (dayX.projects.getD []) "X")
      ∧ mget (mergeResult mgrX 0 emptyDay dayX).store.days 1
          = mget mgrX.store.days 1)
    ∧ save mgrNoProj 0 (some fileX) = .error () := by
  have h := (claim_C1_merge_amended mgrX 0 fileX emptyDay dayX []
    [("X", detX)] "X" 1).1 rfl rfl rfl rfl
  have herr := (claim_C1_merge_amended mgrNoProj 0 fileX dayNoProj dayX []
    [("X", detX)] "X" 1).2.2.2 rfl rfl rfl (by decide)
  exact ⟨⟨h.1, h.2.1, h.2.2.1, h.2.2.2 (by decide)⟩, herr⟩

/-! ## Claim C2: schema completeness -/

theorem dayComplete_lookup {day : RawDay} (h : dayComplete day) (p : String) :
    optComplete (mget (day.projects.getD []) p) := by
  by_cases hp : p ∈ (day.projects.getD []).map Prod.fst
  · exact h.2.2 p hp
  · rw [(mget_eq_none_iff _ p).mpr hp]
    trivial

theorem storeComplete_lookup {s : TrackerFile} (h : storeComplete s) (k : Int) :
    optDayComplete (mget s.days k) := by
  by_cases hk : k ∈ s.days.map Prod.fst
  · exact h k hk
  · rw [(mget_eq_none_iff _ k).mpr hk]
    trivial

theorem storeComplete_of_lookup {s : TrackerFile}
    (h : ∀ k, optDayComplete (mget s.days k)) : storeComplete s :=
  fun k _ => h k

theorem mget_foldl_fixProject_not_mem (ks : List String)
    (ps : List (String × RawDetails)) (p : String) (hp : p ∉ ks) :
    mget (ks.foldl fixProject ps) p = mget ps p := by
  induction ks generalizing ps with
  | nil => rfl
  | cons k t ih =>
    rw [List.foldl_cons, ih _ (fun h => hp (List.mem_cons_of_mem k h))]
    exact mget_fixProject_ne ps k p (fun h => hp (h ▸ List.mem_cons_self k t))

theorem mget_foldl_fixProject_mem (ks : List String)
    (ps : List (String × RawDetails)) (p : String) (hp : p ∈ ks) :
    ∃ d, mget (ks.foldl fixProject ps) p = some d ∧ detailsComplete d := by
  induction ks generalizing ps with
  | nil => cases hp
  | cons k t ih =>
    rw [List.foldl_cons]
    by_cases ht : p ∈ t
    · exact ih (fixProject ps k) ht
    · have hk : p = k := by
        rcases List.mem_cons.mp hp with h | h
        · exact h
        · exact absurd h ht
      subst hk
      rw [mget_foldl_fixProject_not_mem t _ p ht, mget_fixProject_self]
      exact ⟨_, rfl, fillDetails_complete _⟩

theorem validateDay_allF_complete (day : RawDay) :
    dayComplete (validateDay day .allF) := by
  unfold validateDay dayComplete
  refine ⟨rfl, rfl, ?_⟩
  intro p _
  simp only [Option.getD_some]
  by_cases hp : p ∈ (day.projects.getD []).map Prod.fst
  · obtain ⟨d, hd, hc⟩ :=
      mget_foldl_fixProject_mem ((day.projects.getD []).map Prod.fst)
        (day.projects.getD []) p hp
    rw [hd]
    exact hc
  · rw [mget_foldl_fixProject_not_mem _ _ p hp, (mget_eq_none_iff _ p).mpr hp]
    trivial

theorem migrate_foldl_not_mem (ks : List Int) (s : TrackerFile) (k : Int)
    (hk : k ∉ ks) :
    mget ((ks.foldl (fun s d => validateDaySchema s d .allF) s).days) k
      = mget s.days k := by
  induction ks generalizing s with
  | nil => rfl
  | cons d t ih =>
    rw [List.foldl_cons, ih _ (fun h => hk (List.mem_cons_of_mem d h))]
    exact validateDaySchema_lookup_ne s d k .allF
      (fun h => hk (h ▸ List.mem_cons_self d t))

theorem migrate_foldl_mem (ks : List Int) (s : TrackerFile) (k : Int)
    (hk : k ∈ ks) :
    ∃ day, mget ((ks.foldl (fun s d => validateDaySchema s d .allF) s).days) k
        = some day ∧ dayComplete day := by
  induction ks generalizing s with
  | nil => cases hk
  | cons d t ih =>
    rw [List.foldl_cons]
    by_cases ht : k ∈ t
    · exact ih _ ht
    · have hd : k = d := by
        rcases List.mem_cons.mp hk with h | h
        · exact h
        · exact absurd h ht
      subst hd
      rw [migrate_foldl_not_mem t _ k ht, validateDaySchema_lookup_self]
      exact ⟨_, rfl, validateDay_allF_complete _⟩

theorem load_migration_complete (m : TimeManager) (f : TrackerFile)
    (h : f.version ≠ CURRENT_SCHEMA_VERSION) :
    storeComplete (load m (some f)).store := by
  simp only [load]
  rw [if_pos h]
  apply storeComplete_of_lookup
  intro k
  show optDayComplete
    (mget ((f.days.map Prod.fst).foldl (fun s d => validateDaySchema s d .allF) f).days k)
  by_cases hk : k ∈ f.days.map Prod.fst
  · obtain ⟨day, hd, hc⟩ := migrate_foldl_mem (f.days.map Prod.fst) f k hk
    rw [hd]
    exact hc
  · rw [migrate_foldl_not_mem _ _ k hk, (mget_eq_none_iff _ k).mpr hk]
    trivial

theorem projectsBefore_complete (m : TimeManager) (today : Int)
    (h : storeComplete m.store) (p : String) :
    optComplete (mget (projectsBefore m today) p) := by
  unfold projectsBefore dayBefore
  cases hm : mget m.store.days today with
  | none => simp [optComplete]
  | some day0 =>
    have hd := storeComplete_lookup h today
    rw [hm] at hd
    exact dayComplete_lookup hd p

theorem storeComplete_updateDetails (m : TimeManager) (today : Int) (pid : String)
    (delta : DetailsDelta) (h : storeComplete m.store) :
    storeComplete (updateDetails m today pid delta).store := by
  rw [updateDetails_spec]
  apply storeComplete_of_lookup
  intro k
  by_cases hk : k = today
  · subst hk
    rw [mget_mset_self]
    refine ⟨rfl, rfl, ?_⟩
    intro p _
    simp only [Option.getD_some]
    by_cases hp : p = pid
    · subst hp
      rw [mget_mset_self]
      exact applyDetails_complete _ _ (fillDetails_complete _)
    · rw [mget_mset_ne _ _ _ _ (fun hh => hp hh.symm),
        mget_fixProject_ne _ _ _ (fun hh => hp hh.symm)]
      exact projectsBefore_complete m k h p
  · rw [mget_mset_ne _ _ _ _ (fun hh => hk hh.symm)]
    exact storeComplete_lookup h k

/-- Closed form for `addSave`: validation fills today's slot, then the
extension's count (a falsy count read as 0) is incremented. -/
theorem addSave_spec (m : TimeManager) (today : Int) (ext : String) :
    addSave m today ext =
      { store :=
          { version := m.store.version,
            days := mset m.store.days today
              { projects := some (projectsBefore m today),
                saves := some (mset ((dayBefore m today).saves.getD []) ext
                  (((mget ((dayBefore m today).saves.getD []) ext).getD 0) + 1)) } },
        activeProjects := m.activeProjects } := by
  unfold addSave
  simp only [validateDaySchema_lookup_self, validateDay, projectsBefore, dayBefore,
    validateDaySchema, mset_mset_self, mget_mset_self, Option.getD_some]

theorem storeComplete_addSave (m : TimeManager) (today : Int) (ext : String)
    (h : storeComplete m.store) : storeComplete (addSave m today ext).store := by
  rw [addSave_spec]
  apply storeComplete_of_lookup
  intro k
  by_cases hk : k = today
  · subst hk
    rw [mget_mset_self]
    refine ⟨rfl, rfl, ?_⟩
    intro p _
    simp only [Option.getD_some]
    exact projectsBefore_complete m k h p
  · rw [mget_mset_ne _ _ _ _ (fun hh => hk hh.symm)]
    exact storeComplete_lookup h k

theorem storeComplete_updateDaySeconds (m : TimeManager) (pid : String)
    (now today : Int) (h : storeComplete m.store) :
    storeComplete (updateDaySeconds m pid now today).store := by
  cases hA : mget m.activeProjects pid with
  | none =>
    rw [updateDaySeconds_noop _ _ _ _ hA]
    exact h
  | some start =>
    rw [updateDaySeconds_active _ _ _ _ start hA]
    exact storeComplete_updateDetails m today pid _ h

theorem storeComplete_endTracking (m : TimeManager) (pid : String)
    (now today : Int) (h : storeComplete m.store) :
    storeComplete (endTracking m pid now today).store :=
  storeComplete_updateDaySeconds m pid now today h

theorem storeComplete_updateAllDaySeconds (m : TimeManager) (now today : Int)
    (h : storeComplete m.store) :
    storeComplete (updateAllDaySeconds m now today).store := by
  unfold updateAllDaySeconds
  generalize m.activeProjects.map Prod.fst = l
  induction l generalizing m with
  | nil => exact h
  | cons n t ih =>
    exact ih (updateDaySeconds m n now today)
      (storeComplete_updateDaySeconds m n now today h)

/-- The mutation operations of the `TimeManager` API. -/
inductive Op where
  | updDetails (today : Int) (pid : String) (delta : DetailsDelta)
  | branchOp (today : Int) (pid branch : String)
  | tasksOp (today : Int) (pid : String)
  | debugsOp (today : Int) (pid : String)
  | saveExt (today : Int) (ext : String)
  | startOp (pid : String) (now : Int)
  | endOp (pid : String) (now today : Int)
  | settleOneOp (pid : String) (now today : Int)
  | settleAllOp (now today : Int)

/-- Dispatch one mutation operation. -/
def applyOp (m : TimeManager) : Op → TimeManager
  | .updDetails today pid delta => updateDetails m today pid delta
  | .branchOp today pid branch => addBranch m today pid branch
  | .tasksOp today pid => incrementTasks m today pid
  | .debugsOp today pid => incrementDebugs m today pid
  | .saveExt today ext => addSave m today ext
  | .startOp pid now => startTracking m pid now
  | .endOp pid now today => endTracking m pid now today
  | .settleOneOp pid now today => updateDaySeconds m pid now today
  | .settleAllOp now today => updateAllDaySeconds m now today

theorem storeComplete_applyOp (m : TimeManager) (op : Op)
    (h : storeComplete m.store) : storeComplete (applyOp m op).store := by
  cases op with
  | updDetails today pid delta => exact storeComplete_updateDetails m today pid delta h
  | branchOp today pid branch => exact storeComplete_updateDetails m today pid _ h
  | tasksOp today pid => exact storeComplete_updateDetails m today pid _ h
  | debugsOp today pid => exact storeComplete_updateDetails m today pid _ h
  | saveExt today ext => exact storeComplete_addSave m today ext h
  | startOp pid now => exact h
  | endOp pid now today => exact storeComplete_endTracking m pid now today h
  | settleOneOp pid now today => exact storeComplete_updateDaySeconds m pid now today h
  | settleAllOp now today => exact storeComplete_updateAllDaySeconds m now today h

/-- A file already tagged with the current schema version whose single day
lacks both `projects` and `saves`. -/
def fileBadV2 : TrackerFile :=
  { version := "v2", days := [(0, { projects := none, saves := none })] }

/-- C2 is false as stated: a file tagged with the *current* schema version
is trusted by `load()` and not normalized, so loading a current-version
file whose day lacks `projects` and `saves` leaves a reachable Day Ledger
violating the completeness invariant right after load. -/
theorem claim_C2_counterexample :
    load freshManager (some fileBadV2) = { store := fileBadV2, activeProjects := [] }
    ∧ ¬ storeComplete (load freshManager (some fileBadV2)).store :=
  ⟨rfl, by decide⟩

/-- C2 (amended): the schema-completeness invariant holds after `load` when
the loaded file carries a schema version other than the current one (the
migration normalizes every day); it is preserved by every mutation
operation; and a project entry created by validation is exactly
`seconds=0, branches=[], tasks=0, debugs=0`.  (A file already tagged with
the current version is trusted and not normalized on load.) -/
theorem claim_C2_schema_amended (m : TimeManager) (f : TrackerFile) (op : Op)
    (today : Int) (pid : String) :
    (f.version ≠ CURRENT_SCHEMA_VERSION → storeComplete (load m (some f)).store)
    ∧ (storeComplete m.store → storeComplete (applyOp m op).store)
    ∧ (mget (projectsBefore m today) pid = none →
        mget ((validateDay (dayBefore m today) (.idF pid)).projects.getD []) pid
          = some { branches := some [], tasks := some 0, debugs := some 0,
                   seconds := some 0 }) := by
  refine ⟨load_migration_complete m f, storeComplete_applyOp m op, ?_⟩
  intro hp
  unfold projectsBefore at hp
  simp only [validateDay, Option.getD_some]
  rw [mget_fixProject_self, hp]
  rfl

/-- Old-schema file whose single day misses `saves` and whose project entry
misses every counter field. -/
def fileV1 : TrackerFile :=
  { version := "v1",
    days := [(0,
      { projects := some [("P",
          { branches := none, tasks := none, debugs := none, seconds := none })],
        saves := none })] }

/-- Witness for the amended C2 at concrete inputs: migrating `fileV1`,
running `addBranch` on a complete store, and first-touch entry creation. -/
theorem claim_C2_schema_amended_witness :
    storeComplete (load freshManager (some fileV1)).store
    ∧ storeComplete (applyOp freshManager (Op.branchOp 0 "p" "b")).store
    ∧ mget ((validateDay (dayBefore freshManager 0) (.idF "p")).projects.getD []) "p"
        = some { branches := some [], tasks := some 0, debugs := some 0,
                 seconds := some 0 } :=
  ⟨(claim_C2_schema_amended freshManager fileV1 (Op.branchOp 0 "p" "b") 0 "p").1
      (by decide),
   (claim_C2_schema_amended freshManager fileV1 (Op.branchOp 0 "p" "b") 0 "p").2.1
      (by decide),
   (claim_C2_schema_amended freshManager fileV1 (Op.branchOp 0 "p" "b") 0 "p").2.2
      (by decide)⟩

/-! ## Claim C3: period aggregation -/

/-- The per-day reported value of project `p` on day `d`: the entry `p` in
what `getStats d` returns (today's value carries the live session
adjustment, per the `getStats` contract). -/
def perDayStats (m : TimeManager) (p : String) (d today now : Int) :
    Option RawDetails :=
  (getStats m d today now).bind (fun ds => mget (ds.projects.getD []) p)

/-- Seconds contributed by offset `i` (0 when the day or entry is absent). -/
def contribSeconds (m : TimeManager) (p : String) (today now : Int) (i : Nat) : Rat :=
  match perDayStats m p (dateString today i) today now with
  | none => 0
  | some d => d.seconds.getD 0

/-- Tasks contributed by offset `i`. -/
def contribTasks (m : TimeManager) (p : String) (today now : Int) (i : Nat) : Rat :=
  match perDayStats m p (dateString today i) today now with
  | none => 0
  | some d => d.tasks.getD 0

/-- Debugs contributed by offset `i`. -/
def contribDebugs (m : TimeManager) (p : String) (today now : Int) (i : Nat) : Rat :=
  match perDayStats m p (dateString today i) today now with
  | none => 0
  | some d => d.debugs.getD 0

/-- Branch list contributed by offset `i` (empty when the day, the entry or
the `branches` field is absent — the source guards each of these). -/
def contribBranches (m : TimeManager) (p : String) (today now : Int) (i : Nat) :
    List String :=
  match perDayStats m p (dateString today i) today now with
  | none => []
  | some d => d.branches.getD []

/-- The per-entry live adjustment `getStats` applies to today's deep copy:
an active project's seconds grow by the (unclamped) elapsed session time;
an absent `seconds` stays `none` (the `NaN` the source's `+=` produces). -/
def adjustEntry (act : List (String × Int)) (now : Int) (n : String)
    (d : RawDetails) : RawDetails :=
  match mget act n with
  | some started =>
      { d with seconds := (d.seconds).map (fun s => s + secondsSize now started) }
  | none => d

theorem getStats_none (m : TimeManager) (d today now : Int)
    (h : mget m.store.days d = none) : getStats m d today now = none := by
  unfold getStats
  rw [h]

theorem getStats_ne_today (m : TimeManager) (d today now : Int) (hd : d ≠ today) :
    getStats m d today now = mget m.store.days d := by
  unfold getStats
  cases hm : mget m.store.days d with
  | none => rfl
  | some day => simp [hd]

theorem getStats_today_noProjects (m : TimeManager) (today now : Int) (day : RawDay)
    (hm : mget m.store.days today = some day) (hp : day.projects = none) :
    getStats m today today now = some day := by
  unfold getStats
  rw [hm]
  simp [hp]

theorem getStats_today_spec (m : TimeManager) (today now : Int) (day : RawDay)
    (ps : List (String × RawDetails))
    (hm : mget m.store.days today = some day) (hp : day.projects = some ps) :
    getStats m today today now =
      some { day with projects := some (ps.map (fun e =>
        (e.1, adjustEntry m.activeProjects now e.1 e.2))) } := by
  unfold getStats adjustEntry
  rw [hm]
  simp [hp]

theorem adjustEntry_complete (act : List (String × Int)) (now : Int) (n : String)
    (d : RawDetails) (h : detailsComplete d) :
    detailsComplete (adjustEntry act now n d) := by
  obtain ⟨h1, h2, h3, h4⟩ := h
  unfold adjustEntry
  cases mget act n with
  | none => exact ⟨h1, h2, h3, h4⟩
  | some started =>
    cases hs : d.seconds with
    | none =>
      rw [hs] at h4
      exact absurd h4 (by simp)
    | some s =>
      refine ⟨h1, h2, h3, ?_⟩
      simp [hs]

/-- Under the schema-completeness invariant, every day `getStats` returns
carries a present `projects` map whose entries are complete. -/
theorem getStats_complete (m : TimeManager) (today now d : Int) (ds : RawDay)
    (h : storeComplete m.store) (hg : getStats m d today now = some ds) :
    ∃ ps, ds.projects = some ps
      ∧ ∀ q det, mget ps q = some det → detailsComplete det := by
  cases hm : mget m.store.days d with
  | none =>
    rw [getStats_none m d today now hm] at hg
    exact Option.noConfusion hg
  | some day =>
    have hc := storeComplete_lookup h d
    rw [hm] at hc
    have hentry : ∀ q det, mget (day.projects.getD []) q = some det →
        detailsComplete det := by
      intro q det hq
      have h2 := dayComplete_lookup hc q
      rw [hq] at h2
      exact h2
    obtain ⟨ps, hps⟩ := Option.isSome_iff_exists.mp hc.1
    by_cases hd : d = today
    · subst hd
      rw [getStats_today_spec m d now day ps hm hps] at hg
      injection hg with hg'
      subst hg'
      refine ⟨ps.map (fun e => (e.1, adjustEntry m.activeProjects now e.1 e.2)),
        rfl, ?_⟩
      intro q det hq
      rw [mget_map ps (adjustEntry m.activeProjects now) q] at hq
      cases hmq : mget ps q with
      | none =>
        rw [hmq] at hq
        exact Option.noConfusion hq
      | some det0 =>
        rw [hmq] at hq
        injection hq with hq'
        subst hq'
        apply adjustEntry_complete
        apply hentry q det0
        rw [hps]
        simpa using hmq
    · rw [getStats_ne_today m d today now hd, hm] at hg
      injection hg with hg'
      subst hg'
      refine ⟨ps, hps, ?_⟩
      intro q det hq
      apply hentry q det
      rw [hps]
      simpa using hq

theorem getStatsForPeriod_succ (m : TimeManager) (p : String) (n : Nat)
    (today now : Int) :
    getStatsForPeriod m p (n + 1) today now =
      getStatsForPeriod m p n today now >>=
        (fun stats => periodStep m p today now stats (dateString today n)) := by
  unfold getStatsForPeriod getDays
  rw [List.range_succ, List.map_append, List.foldlM_append]
  simp only [List.map_cons, List.map_nil, List.foldlM_cons, List.foldlM_nil,
    bind_pure]

/-- Closed form of the `getStatsForPeriod` fold under the
schema-completeness invariant: the call succeeds and returns the sums and
deduplicated union of the per-day contributions over offsets `0..n-1`. -/
theorem getStatsForPeriod_closed (m : TimeManager) (p : String) (n : Nat)
    (today now : Int) (h : storeComplete m.store) :
    getStatsForPeriod m p n today now = .ok
      { seconds := some (((List.range n).map (contribSeconds m p today now)).sum),
        branches := jsDedup (((List.range n).map (contribBranches m p today now)).flatten),
        tasks := some (((List.range n).map (contribTasks m p today now)).sum),
        debugs := some (((List.range n).map (contribDebugs m p today now)).sum) } := by
  induction n with
  | zero => rfl
  | succ k ih =>
    rw [getStatsForPeriod_succ, ih]
    show periodStep m p today now _ (dateString today k) = _
    unfold periodStep
    cases hg : getStats m (dateString today k) today now with
    | none =>
      have hpd : perDayStats m p (dateString today k) today now = none := by
        unfold perDayStats
        rw [hg]
        rfl
      simp only [contribSeconds, contribTasks, contribDebugs, contribBranches,
        hpd, List.range_succ, List.map_append, List.map_cons, List.map_nil,
        List.sum_append, List.flatten_append, List.sum_cons, List.sum_nil,
        List.flatten_cons, List.flatten_nil, List.append_nil, add_zero]
    | some dayStats =>
      obtain ⟨ps, hps, hentries⟩ :=
        getStats_complete m today now (dateString today k) dayStats h hg
      cases hmg : mget ps p with
      | none =>
        have hpd : perDayStats m p (dateString today k) today now = none := by
          unfold perDayStats
          rw [hg]
          simp [hps, hmg]
        simp only [hps, hmg, contribSeconds, contribTasks, contribDebugs,
          contribBranches, hpd, List.range_succ, List.map_append, List.map_cons,
          List.map_nil, List.sum_append, List.flatten_append, List.sum_cons,
          List.sum_nil, List.flatten_cons, List.flatten_nil, List.append_nil,
          add_zero]
      | some dv =>
        have hpd : perDayStats m p (dateString today k) today now = some dv := by
          unfold perDayStats
          rw [hg]
          simp [hps, hmg]
        obtain ⟨hb, ht, hdg, hs⟩ := hentries p dv hmg
        obtain ⟨bs, hbs⟩ := Option.isSome_iff_exists.mp hb
        obtain ⟨tv, htv⟩ := Option.isSome_iff_exists.mp ht
        obtain ⟨dgv, hdgv⟩ := Option.isSome_iff_exists.mp hdg
        obtain ⟨sv, hsv⟩ := Option.isSome_iff_exists.mp hs
        simp only [hps, hmg, hbs, htv, hdgv, hsv, optAdd, contribSeconds,
          contribTasks, contribDebugs, contribBranches, hpd, List.range_succ,
          List.map_append, List.map_cons, List.map_nil, List.sum_append,
          List.flatten_append, List.sum_cons, List.sum_nil, List.flatten_cons,
          List.flatten_nil, List.append_nil, add_zero, Option.getD_some,
          jsDedup_idem_append]

/-- C3: on a schema-complete store, `getStatsForPeriod(p, n)` succeeds and
aggregates exactly offsets 0 through n-1 backward from today: `seconds`,
`tasks` and `debugs` are the sums of `p`'s per-day reported values over
those days, `branches` is the deduplicated union of `p`'s per-day branch
lists, and a day with no stored data (or no entry for `p`) contributes zero
to the sums and nothing to the union.  (On a day whose malformed entry
lacks `projects` the source throws instead; the completeness invariant
rules that out.) -/
theorem claim_C3_period_aggregation (m : TimeManager) (p : String) (n : Nat)
    (today now d : Int) (h : storeComplete m.store) :
    getStatsForPeriod m p n today now = .ok
      { seconds := some (((List.range n).map (contribSeconds m p today now)).sum),
        branches := jsDedup (((List.range n).map (contribBranches m p today now)).flatten),
        tasks := some (((List.range n).map (contribTasks m p today now)).sum),
        debugs := some (((List.range n).map (contribDebugs m p today now)).sum) }
    ∧ (mget m.store.days d = none → perDayStats m p d today now = none) := by
  refine ⟨getStatsForPeriod_closed m p n today now h, ?_⟩
  intro hd
  unfold perDayStats getStats
  rw [hd]
  rfl

/-- Witness for C3 at a concrete input (a schema-complete store with one
recorded day, window of 2 days, and an absent day key 5). -/
theorem claim_C3_period_aggregation_witness :
    (getStatsForPeriod mgrSaves "p" 2 0 0 = .ok
      { seconds := some (((List.range 2).map (contribSeconds mgrSaves "p" 0 0)).sum),
        branches := jsDedup (((List.range 2).map (contribBranches mgrSaves "p" 0 0)).flatten),
        tasks := some (((List.range 2).map (contribTasks mgrSaves "p" 0 0)).sum),
        debugs := some (((List.range 2).map (contribDebugs mgrSaves "p" 0 0)).sum) })
    ∧ perDayStats mgrSaves "p" 5 0 0 = none := by
  have h := claim_C3_period_aggregation mgrSaves "p" 2 0 0 5 (by decide)
  exact ⟨h.1, h.2 (by decide)⟩

/-! ## Claims C4 and C10: live adjustment and untracked projects -/

/-- A stored entry for `p` with 4 seconds. -/
def detB : RawDetails :=
  { branches := some [], tasks := some 0, debugs := some 0, seconds := some 4 }

/-- Today's ledger holding `p ↦ detB`. -/
def dayB : RawDay := { projects := some [("p", detB)], saves := some [] }

/-- Manager with `p` stored (4 s) and active since 1000 ms. -/
def mgrLive : TimeManager :=
  { store := { version := "v2", days := [(0, dayB)] },
    activeProjects := [("p", 1000)] }

theorem perDayStats_today_absent (m : TimeManager) (p : String) (today now : Int)
    (hp : mget (projectsBefore m today) p = none) :
    perDayStats m p today today now = none := by
  unfold perDayStats
  cases hm : mget m.store.days today with
  | none =>
    rw [getStats_none m today today now hm]
    rfl
  | some day =>
    unfold projectsBefore dayBefore at hp
    rw [hm] at hp
    simp only [Option.getD_some] at hp
    cases hps : day.projects with
    | none =>
      rw [getStats_today_noProjects m today now day hm hps, Option.some_bind]
      rw [hps] at hp
      simpa [hps] using hp
    | some ps =>
      rw [hps, Option.getD_some] at hp
      rw [getStats_today_spec m today now day ps hm hps, Option.some_bind]
      simp only [Option.getD_some]
      rw [mget_map ps (adjustEntry m.activeProjects now) p, hp]
      rfl

/-- C4: `getStats(today)` reports, for every active project whose stored
entry has a (numeric) `seconds` value, seconds equal to the stored value
plus the elapsed session time, while the seconds value held in the store
stays the unadjusted one (the adjustment happens on the deep copy only:
the call does not mutate the store).  An entry with `seconds` absent
would instead yield `NaN` (`none` here), hence the presence hypothesis. -/
theorem claim_C4_getStats_live (m : TimeManager) (today now : Int) (day : RawDay)
    (ps : List (String × RawDetails)) (q : String) (det : RawDetails)
    (start : Int) (s : Rat)
    (hm : mget m.store.days today = some day)
    (hp : day.projects = some ps)
    (hq : mget ps q = some det)
    (ha : mget m.activeProjects q = some start)
    (hs : det.seconds = some s) :
    perDayStats m q today today now
        = some { det with seconds := some (s + secondsSize now start) }
    ∧ storedSeconds m today q = s := by
  have hadj : adjustEntry m.activeProjects now q det
      = { det with seconds := some (s + secondsSize now start) } := by
    unfold adjustEntry
    rw [ha, hs]
    rfl
  constructor
  · unfold perDayStats
    rw [getStats_today_spec m today now day ps hm hp, Option.some_bind]
    simp only [Option.getD_some]
    rw [mget_map ps (adjustEntry m.activeProjects now) q, hq]
    rw [Option.map_some', hadj]
  · simp only [storedSeconds, hm, hp, Option.getD_some, hq, hs]

/-- Witness for C4 at a concrete input: reading stats at 3000 ms reports
4 + 2 seconds while the store still holds 4. -/
theorem claim_C4_getStats_live_witness :
    perDayStats mgrLive "p" 0 0 3000
        = some { detB with seconds := some (4 + secondsSize 3000 1000) }
    ∧ storedSeconds mgrLive 0 "p" = 4 :=
  claim_C4_getStats_live mgrLive 0 3000 dayB [("p", detB)] "p" detB 1000 4
    (by decide) rfl (by decide) (by decide) rfl

/-- One window-day step of `getStatsForPeriod` ignores the active sessions
when the project has no stored entry for today. -/
theorem periodStep_no_active (m : TimeManager) (p : String) (today now : Int)
    (hp : mget (projectsBefore m today) p = none)
    (stats : TrackerDetails) (day : Int) :
    periodStep m p today now stats day =
      periodStep { store := m.store, activeProjects := [] } p today now stats day := by
  unfold periodStep
  by_cases hd : day = today
  · subst hd
    cases hm : mget m.store.days day with
    | none =>
      rw [getStats_none m day day now hm,
        getStats_none { store := m.store, activeProjects := [] } day day now hm]
    | some dv =>
      unfold projectsBefore dayBefore at hp
      rw [hm] at hp
      simp only [Option.getD_some] at hp
      cases hps : dv.projects with
      | none =>
        rw [getStats_today_noProjects m day now dv hm hps,
          getStats_today_noProjects { store := m.store, activeProjects := [] }
            day now dv hm hps]
      | some ps =>
        rw [hps, Option.getD_some] at hp
        rw [getStats_today_spec m day now dv ps hm hps,
          getStats_today_spec { store := m.store, activeProjects := [] }
            day now dv ps hm hps]
        simp only [mget_map ps (adjustEntry m.activeProjects now) p,
          mget_map ps (adjustEntry ([] : List (String × Int)) now) p,
          hp, Option.map_none']
  · rw [getStats_ne_today m day today now hd,
      getStats_ne_today { store := m.store, activeProjects := [] } day today now hd]

/-- Folding two pointwise-equal step functions gives the same result. -/
theorem foldlM_congr_step (f g : TrackerDetails → Int → Except Unit TrackerDetails)
    (h : ∀ s a, f s a = g s a) (l : List Int) (s : TrackerDetails) :
    l.foldlM f s = l.foldlM g s := by
  induction l generalizing s with
  | nil => rfl
  | cons a t ih =>
    rw [List.foldlM_cons, List.foldlM_cons, h]
    cases hg : g s a with
    | error e => rfl
    | ok s' =>
      show t.foldlM f s' = t.foldlM g s'
      exact ih s'

/-- C10: a project with an active session but no entry in today's stored
ledger is entirely absent from `getStats(today)`'s result and contributes
no in-progress seconds to `getStatsForPeriod` (the live adjustment only
iterates over stored entries); `startTracking` itself never touches the
store, so this persists until the first settle or other mutation. -/
theorem claim_C10_untracked_absent (m : TimeManager) (p : String)
    (today now : Int) (n : Nat) (day' : RawDay) (pid : String) (t : Int) :
    (mget (projectsBefore m today) p = none →
      perDayStats m p today today now = none
      ∧ (getStats m today today now = some day' →
          mget (day'.projects.getD []) p = none)
      ∧ getStatsForPeriod m p n today now
          = getStatsForPeriod { store := m.store, activeProjects := [] } p n today now)
    ∧ (startTracking m pid t).store = m.store := by
  refine ⟨?_, rfl⟩
  intro hp
  refine ⟨perDayStats_today_absent m p today now hp, ?_, ?_⟩
  · intro hg'
    cases hm : mget m.store.days today with
    | none =>
      rw [getStats_none m today today now hm] at hg'
      exact Option.noConfusion hg'
    | some day =>
      unfold projectsBefore dayBefore at hp
      rw [hm] at hp
      simp only [Option.getD_some] at hp
      cases hps : day.projects with
      | none =>
        rw [getStats_today_noProjects m today now day hm hps] at hg'
        injection hg' with h
        subst h
        rw [hps] at hp
        simp [hps, hp]
      | some ps =>
        rw [hps, Option.getD_some] at hp
        rw [getStats_today_spec m today now day ps hm hps] at hg'
        injection hg' with h
        subst h
        simp only [Option.getD_some]
        rw [mget_map ps (adjustEntry m.activeProjects now) p, hp]
        rfl
  · unfold getStatsForPeriod
    exact foldlM_congr_step _ _
      (fun st a => periodStep_no_active m p today now hp st a) _ _

/-- Witness for C10 at a concrete input: `X` is active but `p` has no
stored entry; today's slot exists, so `getStats` returns it without a
`p` entry, and the one-day period aggregate ignores the session. -/
theorem claim_C10_untracked_absent_witness :
    (perDayStats mgrX "p" 0 0 2000 = none
      ∧ (getStats mgrX 0 0 2000 = some emptyDay →
          mget (emptyDay.projects.getD []) "p" = none)
      ∧ getStatsForPeriod mgrX "p" 1 0 2000
          = getStatsForPeriod { store := mgrX.store, activeProjects := [] } "p" 1 0 2000)
    ∧ (startTracking mgrX "q" 7).store = mgrX.store := by
  have h := claim_C10_untracked_absent mgrX "p" 0 2000 1 emptyDay "q" 7
  exact ⟨h.1 (by decide), h.2⟩
